import Mathlib

/-!
# Jeopardy board (`jeopardy.js`): shallow embedding and verified properties

JavaScript arrays are modelled as lists, objects as structures, `null` as
`Option.none`, a thrown exception or a rejected promise as `Except.error`.
The outside world enters through three parameters:

* `draw i` is the value of `Math.floor(Math.random() * currentIndex)` taken
  when `currentIndex = i` inside `shuffleArray`;
* `res` is the outcome of `axios.get(".../api/categories", count 100)`,
  `res.data` on success;
* `fetch catId` is the outcome of `axios.get(".../api/category", id catId)`,
  taken to depend on the identifier only.

Functions that write the global `categories` or the page return the state
they leave next to their outcome, so that what a failed call leaves behind
can be stated.
-/

namespace Jeopardy

/-! ## Data model -/

/-- The error object an axios request is rejected with, as far as the
program can tell one from another: its `name` and its `message`. -/
structure Rejection where
  name : String
  message : String
  deriving DecidableEq, Repr

/-- What an `async` function of the program can fail with: the `TypeError`
the engine raises when a property of `undefined` is read, or the rejection
of an axios request, passed on as it is. The program has no `throw` of its
own. -/
inductive JsError where
  | typeError
  | rejected (reason : Rejection)
  deriving DecidableEq, Repr

/-- The `name` property of the error object. -/
def JsError.name : JsError → String
  | .typeError => "TypeError"
  | .rejected reason => reason.name

/-- A clue of the board, `{question, answer, showing}`; `showing` is `null`,
`"question"` or `"answer"`. -/
structure Clue where
  question : String
  answer : String
  showing : Option String
  deriving DecidableEq, Repr

/-- A category of the board, `{title, clues}`. -/
structure Category where
  title : String
  clues : List Clue
  deriving DecidableEq, Repr

/-- An entry of `res.data` of the categories request. The code reads `id`
only; `other` stands for the properties it never looks at. -/
structure PoolEntry where
  id : Nat
  other : String
  deriving DecidableEq, Repr

/-- A clue as found in `res.data.clues` of the category request. -/
structure RawClue where
  question : String
  answer : String
  deriving DecidableEq, Repr

/-- The `res.data` of the category request. -/
structure RawCategory where
  title : String
  clues : List RawClue
  deriving DecidableEq, Repr

/-- The mutable state of the page: the global `categories`, the text of the
cells of `#categories` and the text of the cells of `#questions`, one list
per table row. -/
structure Game where
  categories : List Category
  header : List String
  questions : List (List String)
  deriving DecidableEq, Repr

/-- The cell a click lands on, read from `evt.target.dataset`. -/
structure ClickEvent where
  row : Nat
  column : Nat
  deriving DecidableEq, Repr

/-! ## shuffleArray (lines 23-34) -/

/-- The destructuring assignment
`[arr[currentIndex], arr[randomIndex]] = [arr[randomIndex], arr[currentIndex]]`.
Both indices lie inside the array whenever the draw is below the old
`currentIndex`; the model leaves the array alone otherwise. -/
def swapEntries {α : Type} (arr : List α) (currentIndex randomIndex : Nat) : List α :=
  match arr[randomIndex]?, arr[currentIndex]? with
  | some a, some b => (arr.set currentIndex a).set randomIndex b
  | _, _ => arr

/-- The variables of the loop of `shuffleArray`. -/
structure ShuffleState (α : Type) where
  arr : List α
  currentIndex : Nat

/-- One pass through the body of the loop (lines 26-31). -/
def shuffleBody {α : Type} (draw : Nat → Nat) (s : ShuffleState α) : ShuffleState α :=
  let randomIndex := draw s.currentIndex
  let currentIndex := s.currentIndex - 1
  { arr := swapEntries s.arr currentIndex randomIndex, currentIndex := currentIndex }

/-- The loop `while (currentIndex != 0)` run for at most `fuel` passes;
`none` when the guard still holds after them. -/
def shuffleWhile {α : Type} (draw : Nat → Nat) : Nat → ShuffleState α → Option (ShuffleState α)
  | 0, s => if s.currentIndex = 0 then some s else none
  | fuel + 1, s =>
    if s.currentIndex = 0 then some s else shuffleWhile draw fuel (shuffleBody draw s)

/-- The same loop by recursion on `currentIndex`, which every pass
decrements. -/
def shuffleLoop {α : Type} (draw : Nat → Nat) : Nat → List α → List α
  | 0, arr => arr
  | currentIndex + 1, arr =>
    shuffleLoop draw currentIndex (swapEntries arr currentIndex (draw (currentIndex + 1)))

/-- The function `shuffleArray(arr)`. -/
def shuffleArray {α : Type} (draw : Nat → Nat) (arr : List α) : List α :=
  shuffleLoop draw arr.length arr

/-! ## getCategoryIds (lines 40-50) -/

/-- The loop `for (let i = 0; i < 6; i++) categoryIds.push(shuffledData[i].id)`,
with `remaining = 6 - i`. Reading `.id` of a missing entry throws. -/
def pushIds (shuffledData : List PoolEntry) : Nat → Nat → List Nat → Except JsError (List Nat)
  | 0, _, categoryIds => .ok categoryIds
  | remaining + 1, i, categoryIds =>
    match shuffledData[i]? with
    | none => .error .typeError
    | some entry => pushIds shuffledData remaining (i + 1) (categoryIds ++ [entry.id])

/-- The function `getCategoryIds()`. -/
def getCategoryIds (draw : Nat → Nat) (res : Except Rejection (List PoolEntry)) :
    Except JsError (List Nat) :=
  match res with
  | .error reason => .error (.rejected reason)
  | .ok data =>
    let shuffledData := shuffleArray draw data
    pushIds shuffledData 6 0 []

/-! ## getCategory and populateCategoriesArr (lines 63-88) -/

/-- The function `getCategory(catId)`. -/
def getCategory (fetch : Nat → Except Rejection RawCategory) (catId : Nat) :
    Except JsError Category :=
  match fetch catId with
  | .error reason => .error (.rejected reason)
  | .ok data =>
    let category : Category := { title := data.title, clues := [] }
    .ok (data.clues.foldl
      (fun category clue =>
        let newClue : Clue := { question := clue.question, answer := clue.answer, showing := none }
        { category with clues := category.clues ++ [newClue] })
      category)

/-- The loop `for (let catId of categoryIds)` of `populateCategoriesArr`,
returning the outcome together with the global `categories` it leaves. -/
def populateLoop (fetch : Nat → Except Rejection RawCategory) :
    List Nat → List Category → Except JsError Unit × List Category
  | [], categories => (.ok (), categories)
  | catId :: rest, categories =>
    match getCategory fetch catId with
    | .error e => (.error e, categories)
    | .ok category => populateLoop fetch rest (categories ++ [category])

/-- The function `populateCategoriesArr()`. -/
def populateCategoriesArr (draw : Nat → Nat) (res : Except Rejection (List PoolEntry))
    (fetch : Nat → Except Rejection RawCategory) (categories : List Category) :
    Except JsError Unit × List Category :=
  match getCategoryIds draw res with
  | .error e => (.error e, categories)
  | .ok categoryIds => populateLoop fetch categoryIds categories

/-! ## fillTable (lines 98-119) and the restart button (lines 182-188) -/

/-- The function `fillTable()`. -/
def fillTable (draw : Nat → Nat) (res : Except Rejection (List PoolEntry))
    (fetch : Nat → Except Rejection RawCategory) (g : Game) : Except JsError Unit × Game :=
  match populateCategoriesArr draw res fetch g.categories with
  | (.error e, categories) => (.error e, { g with categories := categories })
  | (.ok (), categories) =>
    let header := categories.foldl (fun tds category => tds ++ [category.title]) g.header
    let questions := (List.range 5).foldl
      (fun trs _ => trs ++ [(List.range 6).foldl (fun newTR _ => newTR ++ ["?"]) []])
      g.questions
    (.ok (), { categories := categories, header := header, questions := questions })

/-- The click listener of the restart button: `categories = []`,
`showLoadingView()` empties `#categories` and `#questions`, then
`setupAndStart()` runs `fillTable()`. -/
def startGameClick (draw : Nat → Nat) (res : Except Rejection (List PoolEntry))
    (fetch : Nat → Except Rejection RawCategory) (_g : Game) : Except JsError Unit × Game :=
  fillTable draw res fetch { categories := [], header := [], questions := [] }

/-! ## handleClick (lines 129-143) -/

/-- The assignment `evt.target.textContent = text` for the cell of
`#questions` in the given row and column. -/
def setTextContent (questions : List (List String)) (row column : Nat) (text : String) :
    List (List String) :=
  match questions[row]? with
  | none => questions
  | some tr => questions.set row (tr.set column text)

/-- The assignment `clue["showing"] = value` for the clue object
`categories[column].clues[row]`. -/
def setShowing (categories : List Category) (column row : Nat) (value : String) :
    List Category :=
  match categories[column]? with
  | none => categories
  | some category =>
    match category.clues[row]? with
    | none => categories
    | some clue =>
      categories.set column
        { category with clues := category.clues.set row { clue with showing := some value } }

/-- The function `handleClick(evt)` for a click on a cell of `#questions`. -/
def handleClick (evt : ClickEvent) (g : Game) : Except JsError Game :=
  let categoryArrPosition := evt.column
  let clueArrPosition := evt.row
  match g.categories[categoryArrPosition]? with
  | none => .error .typeError
  | some category =>
    match category.clues[clueArrPosition]? with
    | none => .error .typeError
    | some clue =>
      let question := clue.question
      let answer := clue.answer
      let showing := clue.showing
      if showing = none then
        .ok { g with
          questions := setTextContent g.questions evt.row evt.column question
          categories := setShowing g.categories categoryArrPosition clueArrPosition "question" }
      else if showing = some "question" then
        .ok { g with
          questions := setTextContent g.questions evt.row evt.column answer
          categories := setShowing g.categories categoryArrPosition clueArrPosition "answer" }
      else .ok g

/-- A sequence of clicks dispatched one after the other. A listener that
throws has not yet written anything, so the page stays as it was and the
next click is handled as usual. -/
def clicks : List ClickEvent → Game → Game
  | [], g => g
  | evt :: rest, g =>
    match handleClick evt g with
    | .ok g' => clicks rest g'
    | .error _ => clicks rest g

/-! ## Vocabulary of the statements -/

/-- The clue `categories[column].clues[row]`, if there is one. -/
def clueAt (categories : List Category) (column row : Nat) : Option Clue :=
  match categories[column]? with
  | none => none
  | some category => category.clues[row]?

/-- The reveal state after one activation, as the doc comment of
`handleClick` lists it. -/
def nextShowing : Option String → Option String
  | none => some "question"
  | some s => if s = "question" then some "answer" else some s

/-- The draws are what `Math.floor(Math.random() * currentIndex)` can be:
below `currentIndex`, for every value `currentIndex` takes from `n` down. -/
def ValidDraws (draw : Nat → Nat) (n : Nat) : Prop :=
  ∀ i, 0 < i → i ≤ n → draw i < i

/-- A sequence of `n` draws, the one taken at `currentIndex = i + 1` being
at most `i`. -/
abbrev DrawSeq (n : Nat) : Type := (i : Fin n) → Fin (i.val + 1)

/-- The draws of a sequence, by the `currentIndex` they are taken at. -/
def drawOf {n : Nat} (d : DrawSeq n) : Nat → Nat :=
  fun currentIndex =>
    if h : 0 < currentIndex ∧ currentIndex ≤ n then (d ⟨currentIndex - 1, by omega⟩).val else 0

/-! ## Sample values -/

/-- The clue of the end-to-end scenario, not yet revealed. -/
def sampleClue : Clue := { question := "2+2", answer := "4", showing := none }

/-- A page with two categories of two clues each. -/
def sampleGame : Game :=
  { categories :=
      [{ title := "Math", clues := [sampleClue, { question := "1+1", answer := "2", showing := none }] },
       { title := "Literature",
         clues := [{ question := "Hamlet Author", answer := "Shakespeare", showing := none },
                   { question := "Bell Jar Author", answer := "Plath", showing := some "answer" }] }]
    header := ["Math", "Literature"]
    questions := [["?", "?"], ["?", "Plath"]] }

/-- Seven entries as the categories request may return them. -/
def samplePool : List PoolEntry :=
  [⟨11, "a"⟩, ⟨12, "b"⟩, ⟨13, "c"⟩, ⟨14, "d"⟩, ⟨15, "e"⟩, ⟨16, "f"⟩, ⟨17, "g"⟩]

/-- Six entries of which two carry the same identifier. -/
def repeatedIdPool : List PoolEntry :=
  [⟨7, "a"⟩, ⟨7, "b"⟩, ⟨8, "c"⟩, ⟨9, "d"⟩, ⟨10, "e"⟩, ⟨11, "f"⟩]

/-- A run of the random source: at `currentIndex = i` the draw is `i / 2`. -/
def sampleDraw : Nat → Nat := fun i => i / 2

/-- Five raw clues. -/
def fiveClues : List RawClue :=
  [⟨"2+2", "4"⟩, ⟨"1+1", "2"⟩, ⟨"3+3", "6"⟩, ⟨"4+4", "8"⟩, ⟨"5+5", "10"⟩]

/-- A category request that always succeeds, with five clues. -/
def sampleFetch : Nat → Except Rejection RawCategory :=
  fun catId => .ok { title := if catId % 2 = 0 then "Even" else "Odd", clues := fiveClues }

/-- A category request that always succeeds, with a single clue. -/
def shortFetch : Nat → Except Rejection RawCategory :=
  fun _ => .ok { title := "Math", clues := [⟨"2+2", "4"⟩] }

/-- A category request that is rejected for identifier 14. -/
def failingFetch : Nat → Except Rejection RawCategory :=
  fun catId => if catId = 14 then .error ⟨"Error", "Network Error"⟩ else shortFetch catId

/-! ## Lemmas on the reveal state machine -/

theorem clueAt_eq_some {categories : List Category} {column row : Nat} {clue : Clue} :
    clueAt categories column row = some clue ↔
      ∃ category, categories[column]? = some category ∧ category.clues[row]? = some clue := by
  unfold clueAt
  cases h : categories[column]? with
  | none => simp
  | some category => simp

theorem clueAt_setShowing {categories : List Category} {column row : Nat} {clue : Clue}
    (h : clueAt categories column row = some clue) (value : String) (c r : Nat) :
    clueAt (setShowing categories column row value) c r =
      if c = column ∧ r = row then some { clue with showing := some value }
      else clueAt categories c r := by
  obtain ⟨category, hc, hr⟩ := clueAt_eq_some.mp h
  have hlt : column < categories.length := (List.getElem?_eq_some.mp hc).1
  have hrlt : row < category.clues.length := (List.getElem?_eq_some.mp hr).1
  simp only [setShowing, hc, hr]
  by_cases hcc : c = column
  · subst hcc
    by_cases hrr : r = row
    · subst hrr
      simp [clueAt, List.getElem?_set, hlt, hrlt]
    · have hrr' : ¬ row = r := fun e => hrr e.symm
      simp [clueAt, List.getElem?_set, hlt, hrr, hrr', hc]
  · have hcc' : ¬ column = c := fun e => hcc e.symm
    simp [clueAt, List.getElem?_set, hcc, hcc']

theorem map_title_setShowing (categories : List Category) (column row : Nat) (value : String) :
    (setShowing categories column row value).map (fun category => category.title) =
      categories.map (fun category => category.title) := by
  cases hc : categories[column]? with
  | none => simp only [setShowing, hc]
  | some category =>
    cases hr : category.clues[row]? with
    | none => simp only [setShowing, hc, hr]
    | some clue =>
      simp only [setShowing, hc, hr]
      apply List.ext_getElem?
      intro i
      simp only [List.getElem?_map, List.getElem?_set]
      by_cases hi : column = i
      · subst hi
        have hlt : column < categories.length := (List.getElem?_eq_some.mp hc).1
        simp [hlt, hc]
      · simp [hi]

theorem map_length_setShowing (categories : List Category) (column row : Nat) (value : String) :
    (setShowing categories column row value).map (fun category => category.clues.length) =
      categories.map (fun category => category.clues.length) := by
  cases hc : categories[column]? with
  | none => simp only [setShowing, hc]
  | some category =>
    cases hr : category.clues[row]? with
    | none => simp only [setShowing, hc, hr]
    | some clue =>
      simp only [setShowing, hc, hr]
      apply List.ext_getElem?
      intro i
      simp only [List.getElem?_map, List.getElem?_set]
      by_cases hi : column = i
      · subst hi
        have hlt : column < categories.length := (List.getElem?_eq_some.mp hc).1
        simp [hlt, hc]
      · simp [hi]

/-- What one call of `handleClick` on an existing clue does to the page. -/
theorem handleClick_spec {g : Game} {evt : ClickEvent} {clue : Clue}
    (h : clueAt g.categories evt.column evt.row = some clue) :
    ∃ g', handleClick evt g = .ok g' ∧ g'.header = g.header ∧
      g'.categories.map (fun category => category.title) =
        g.categories.map (fun category => category.title) ∧
      g'.categories.map (fun category => category.clues.length) =
        g.categories.map (fun category => category.clues.length) ∧
      ∀ c r, clueAt g'.categories c r =
        if c = evt.column ∧ r = evt.row then
          some { clue with showing := nextShowing clue.showing }
        else clueAt g.categories c r := by
  obtain ⟨category, hc, hr⟩ := clueAt_eq_some.mp h
  obtain ⟨question, answer, showing⟩ := clue
  cases showing with
  | none =>
    refine ⟨{ g with
      questions := setTextContent g.questions evt.row evt.column question
      categories := setShowing g.categories evt.column evt.row "question" }, ?_, rfl, ?_, ?_, ?_⟩
    · simp only [handleClick, hc, hr, if_true]
    · exact map_title_setShowing _ _ _ _
    · exact map_length_setShowing _ _ _ _
    · intro c r
      exact clueAt_setShowing h "question" c r
  | some s =>
    by_cases hs : s = "question"
    · subst hs
      refine ⟨{ g with
        questions := setTextContent g.questions evt.row evt.column answer
        categories := setShowing g.categories evt.column evt.row "answer" }, ?_, rfl, ?_, ?_, ?_⟩
      · simp [handleClick, hc, hr]
      · exact map_title_setShowing _ _ _ _
      · exact map_length_setShowing _ _ _ _
      · intro c r
        exact clueAt_setShowing h "answer" c r
    · refine ⟨g, by simp [handleClick, hc, hr, hs], rfl, rfl, rfl, ?_⟩
      intro c r
      by_cases hcr : c = evt.column ∧ r = evt.row
      · obtain ⟨rfl, rfl⟩ := hcr
        simp [h, nextShowing, hs]
      · simp [hcr]

theorem handleClick_missing {g : Game} {evt : ClickEvent}
    (h : clueAt g.categories evt.column evt.row = none) :
    handleClick evt g = .error .typeError := by
  unfold clueAt at h
  cases hc : g.categories[evt.column]? with
  | none => simp only [handleClick, hc]
  | some category =>
    rw [hc] at h
    simp only at h
    simp only [handleClick, hc, h]

theorem handleClick_answer {g : Game} {evt : ClickEvent} {clue : Clue}
    (h : clueAt g.categories evt.column evt.row = some clue)
    (hs : clue.showing = some "answer") : handleClick evt g = .ok g := by
  obtain ⟨category, hc, hr⟩ := clueAt_eq_some.mp h
  simp [handleClick, hc, hr, hs]

theorem nextShowing_iterate_answer (n : Nat) :
    nextShowing^[n] (some "answer") = some "answer" := by
  induction n with
  | zero => rfl
  | succ n ih =>
    rw [Function.iterate_succ_apply]
    have : nextShowing (some "answer") = some "answer" := by decide
    rw [this, ih]

theorem nextShowing_iterate_null (n : Nat) (hn : 2 ≤ n) :
    nextShowing^[n] none = some "answer" := by
  obtain ⟨m, rfl⟩ : ∃ m, n = m + 2 := ⟨n - 2, by omega⟩
  rw [Function.iterate_add_apply]
  have : nextShowing^[2] none = some "answer" := by decide
  rw [this, nextShowing_iterate_answer]

/-- The clue of a cell after a sequence of clicks: its reveal state has
advanced once for every click on that cell, and nothing else has changed. -/
theorem clicks_clueAt (evts : List ClickEvent) :
    ∀ (g : Game) (c r : Nat) (clue : Clue), clueAt g.categories c r = some clue →
      clueAt (clicks evts g).categories c r =
        some { clue with showing := nextShowing^[evts.count ⟨r, c⟩] clue.showing } := by
  induction evts with
  | nil => intro g c r clue h; simpa [clicks] using h
  | cons evt rest ih =>
    intro g c r clue h
    cases he : clueAt g.categories evt.column evt.row with
    | none =>
      have hne : evt ≠ ⟨r, c⟩ := by
        rintro rfl
        rw [h] at he
        cases he
      rw [clicks, handleClick_missing he, List.count_cons_of_ne hne.symm]
      exact ih g c r clue h
    | some clue' =>
      obtain ⟨g', hg', -, -, -, hat⟩ := handleClick_spec he
      rw [clicks, hg']
      by_cases heq : evt = ⟨r, c⟩
      · subst heq
        rw [h] at he
        cases he
        have h' := hat c r
        simp only [and_self, if_true] at h'
        rw [List.count_cons_self, Function.iterate_succ_apply]
        exact ih g' c r _ h'
      · have hcr : ¬ (c = evt.column ∧ r = evt.row) := by
          rintro ⟨rfl, rfl⟩
          exact heq rfl
        have h' := hat c r
        rw [if_neg hcr] at h'
        rw [List.count_cons_of_ne (Ne.symm heq)]
        exact ih g' c r clue (h'.trans h)

/-! ## Lemmas on the board builder -/

theorem foldl_push_clues (clues : List RawClue) (category : Category) :
    clues.foldl
      (fun (category : Category) (clue : RawClue) =>
        let newClue : Clue := { question := clue.question, answer := clue.answer, showing := none }
        { category with clues := category.clues ++ [newClue] })
      category =
    { category with
      clues := category.clues ++
        clues.map (fun clue => { question := clue.question, answer := clue.answer, showing := none }) } := by
  induction clues generalizing category with
  | nil => simp
  | cons clue rest ih => simp [List.foldl_cons, ih]

theorem getCategory_ok {fetch : Nat → Except Rejection RawCategory} {catId : Nat} {data : RawCategory}
    (h : fetch catId = .ok data) :
    getCategory fetch catId = .ok
      { title := data.title
        clues := data.clues.map
          (fun clue => { question := clue.question, answer := clue.answer, showing := none }) } := by
  simp only [getCategory, h, foldl_push_clues, List.nil_append]

theorem getCategory_error {fetch : Nat → Except Rejection RawCategory} {catId : Nat} {reason : Rejection}
    (h : fetch catId = .error reason) : getCategory fetch catId = .error (.rejected reason) := by
  simp only [getCategory, h]

theorem getCategory_eq_ok {fetch : Nat → Except Rejection RawCategory} {catId : Nat}
    {category : Category} (h : getCategory fetch catId = .ok category) :
    ∃ data, fetch catId = .ok data ∧ category.title = data.title ∧
      category.clues = data.clues.map
        (fun clue => { question := clue.question, answer := clue.answer, showing := none }) := by
  cases hf : fetch catId with
  | error reason =>
    rw [getCategory_error hf] at h
    cases h
  | ok data =>
    rw [getCategory_ok hf] at h
    cases h
    exact ⟨data, rfl, rfl, rfl⟩

/-- When every request succeeds the loop appends the fetched categories in
the order of the identifiers. -/
theorem populateLoop_all_ok (fetch : Nat → Except Rejection RawCategory) (ids : List Nat) :
    ∀ categories : List Category, (∀ catId ∈ ids, ∃ data, fetch catId = .ok data) →
      ∃ fetched, populateLoop fetch ids categories = (.ok (), categories ++ fetched) ∧
        List.Forall₂ (fun catId category => getCategory fetch catId = .ok category) ids fetched := by
  induction ids with
  | nil => intro categories _; exact ⟨[], by simp [populateLoop], List.Forall₂.nil⟩
  | cons catId rest ih =>
    intro categories hall
    obtain ⟨data, hd⟩ := hall catId (List.mem_cons_self _ _)
    obtain ⟨fetched, hf, h2⟩ :=
      ih (categories ++ [_]) (fun id hid => hall id (List.mem_cons_of_mem _ hid))
    refine ⟨_ :: fetched, ?_, List.Forall₂.cons (getCategory_ok hd) h2⟩
    rw [populateLoop, getCategory_ok hd]
    simpa using hf

/-- Whatever the loop returns, the categories it has fetched so far sit
behind the ones that were there, in the order of the identifiers. -/
theorem populateLoop_eq_ok (fetch : Nat → Except Rejection RawCategory) (ids : List Nat) :
    ∀ categories result : List Category, populateLoop fetch ids categories = (.ok (), result) →
      ∃ fetched, result = categories ++ fetched ∧
        List.Forall₂ (fun catId category => getCategory fetch catId = .ok category) ids fetched := by
  induction ids with
  | nil =>
    intro categories result h
    simp only [populateLoop, Prod.mk.injEq, true_and] at h
    exact ⟨[], by simp [h], List.Forall₂.nil⟩
  | cons catId rest ih =>
    intro categories result h
    rw [populateLoop] at h
    cases hg : getCategory fetch catId with
    | error e =>
      rw [hg] at h
      simp at h
    | ok category =>
      rw [hg] at h
      obtain ⟨fetched, hr, h2⟩ := ih _ _ h
      exact ⟨category :: fetched, by simp [hr], List.Forall₂.cons hg h2⟩

/-- A request that is rejected stops the loop; what was fetched before it
stays in `categories`. -/
theorem populateLoop_rejected (fetch : Nat → Except Rejection RawCategory) (before : List Nat) :
    ∀ (categories : List Category) (catId : Nat) (after : List Nat) (reason : Rejection),
      (∀ id ∈ before, ∃ data, fetch id = .ok data) → fetch catId = .error reason →
      ∃ fetched, populateLoop fetch (before ++ catId :: after) categories =
          (.error (.rejected reason), categories ++ fetched) ∧
        List.Forall₂ (fun id category => getCategory fetch id = .ok category) before fetched := by
  induction before with
  | nil =>
    intro categories catId after reason _ hfail
    refine ⟨[], ?_, List.Forall₂.nil⟩
    simp [populateLoop, getCategory_error hfail]
  | cons id rest ih =>
    intro categories catId after reason hall hfail
    obtain ⟨data, hd⟩ := hall id (List.mem_cons_self _ _)
    obtain ⟨fetched, hf, h2⟩ := ih (categories ++ [_]) catId after reason
      (fun i hi => hall i (List.mem_cons_of_mem _ hi)) hfail
    refine ⟨_ :: fetched, ?_, List.Forall₂.cons (getCategory_ok hd) h2⟩
    rw [List.cons_append, populateLoop, getCategory_ok hd]
    simpa using hf

theorem pushIds_length (shuffledData : List PoolEntry) (remaining : Nat) :
    ∀ (i : Nat) (categoryIds ids : List Nat),
      pushIds shuffledData remaining i categoryIds = .ok ids →
      ids.length = categoryIds.length + remaining := by
  induction remaining with
  | zero =>
    intro i categoryIds ids h
    simp only [pushIds, Except.ok.injEq] at h
    simp [h]
  | succ remaining ih =>
    intro i categoryIds ids h
    rw [pushIds] at h
    cases he : shuffledData[i]? with
    | none => rw [he] at h; cases h
    | some entry =>
      rw [he] at h
      have := ih _ _ _ h
      simp only [List.length_append, List.length_singleton] at this
      omega

theorem getCategoryIds_length {draw : Nat → Nat} {res : Except Rejection (List PoolEntry)}
    {ids : List Nat} (h : getCategoryIds draw res = .ok ids) : ids.length = 6 := by
  cases res with
  | error reason => cases h
  | ok data => simpa using pushIds_length _ _ _ _ _ h

theorem fillTable_ok {draw : Nat → Nat} {res : Except Rejection (List PoolEntry)}
    {fetch : Nat → Except Rejection RawCategory} {g : Game} {categories : List Category}
    (h : populateCategoriesArr draw res fetch g.categories = (.ok (), categories)) :
    fillTable draw res fetch g = (.ok (),
      { categories := categories
        header := g.header ++ categories.map (fun category => category.title)
        questions := g.questions ++ List.replicate 5 (List.replicate 6 "?") }) := by
  have hheader : ∀ (cats : List Category) (tds : List String),
      cats.foldl (fun tds category => tds ++ [category.title]) tds =
        tds ++ cats.map (fun category => category.title) := by
    intro cats
    induction cats with
    | nil => intro tds; simp
    | cons category rest ih => intro tds; simp [ih]
  have hrow : (List.range 6).foldl (fun (newTR : List String) _ => newTR ++ ["?"]) [] =
      List.replicate 6 "?" := by decide
  have hrows : ∀ trs : List (List String),
      (List.range 5).foldl (fun trs _ => trs ++ [List.replicate 6 "?"]) trs =
        trs ++ List.replicate 5 (List.replicate 6 "?") := by
    intro trs
    simp [List.range_succ, List.replicate]
  simp only [fillTable, h, hheader, hrow, hrows]

theorem fillTable_error {draw : Nat → Nat} {res : Except Rejection (List PoolEntry)}
    {fetch : Nat → Except Rejection RawCategory} {g : Game} {categories : List Category}
    {e : JsError} (h : populateCategoriesArr draw res fetch g.categories = (.error e, categories)) :
    fillTable draw res fetch g = (.error e, { g with categories := categories }) := by
  simp only [fillTable, h]

/-- A round that starts successfully: the identifiers were sampled, every
category was fetched, and the grid has been drawn. -/
theorem startGameClick_eq_ok {draw : Nat → Nat} {res : Except Rejection (List PoolEntry)}
    {fetch : Nat → Except Rejection RawCategory} {g0 g : Game}
    (h : startGameClick draw res fetch g0 = (.ok (), g)) :
    ∃ ids, getCategoryIds draw res = .ok ids ∧
      List.Forall₂ (fun catId category => getCategory fetch catId = .ok category)
        ids g.categories ∧
      g.header = g.categories.map (fun category => category.title) ∧
      g.questions = List.replicate 5 (List.replicate 6 "?") := by
  unfold startGameClick at h
  cases hp : populateCategoriesArr draw res fetch [] with
  | mk result categories =>
    cases result with
    | error e =>
      rw [fillTable_error (g := ⟨[], [], []⟩) hp] at h
      simp at h
    | ok u =>
      rw [fillTable_ok (g := ⟨[], [], []⟩) hp] at h
      simp only [Prod.mk.injEq, true_and] at h
      subst h
      unfold populateCategoriesArr at hp
      cases hi : getCategoryIds draw res with
      | error e =>
        rw [hi] at hp
        simp at hp
      | ok ids =>
        rw [hi] at hp
        obtain ⟨fetched, hr, h2⟩ := populateLoop_eq_ok fetch ids [] categories hp
        simp only [List.nil_append] at hr
        subst hr
        exact ⟨ids, rfl, h2, by simp, by simp⟩

theorem clueAt_eq_none_iff {categories : List Category} {column row : Nat} {category : Category}
    (h : categories[column]? = some category) :
    clueAt categories column row = none ↔ category.clues.length ≤ row := by
  simp [clueAt, h]

/-! ## Lemmas on the shuffle -/


theorem swapEntries_length {α : Type} (arr : List α) (c r : Nat) :
    (swapEntries arr c r).length = arr.length := by
  unfold swapEntries
  split <;> simp

theorem swapEntries_getElem? {α : Type} {arr : List α} {c r : Nat} (hc : c < arr.length)
    (hr : r < arr.length) (k : Nat) :
    (swapEntries arr c r)[k]? = if k = r then arr[c]? else if k = c then arr[r]? else arr[k]? := by
  simp only [swapEntries, List.getElem?_eq_getElem hc, List.getElem?_eq_getElem hr,
    List.getElem?_set, List.length_set]
  by_cases h1 : k = r
  · subst h1
    simp [hr]
  · have h1' : ¬ r = k := fun e => h1 e.symm
    by_cases h2 : k = c
    · subst h2
      simp [h1, h1', hc]
    · have h2' : ¬ c = k := fun e => h2 e.symm
      simp [h1, h1', h2, h2']

theorem swapEntries_map {α β : Type} (f : α → β) (arr : List α) (c r : Nat) :
    swapEntries (arr.map f) c r = (swapEntries arr c r).map f := by
  unfold swapEntries
  cases hr : arr[r]? <;> cases hc : arr[c]? <;> simp [hr, hc, List.map_set]

theorem swapEntries_perm {α : Type} (arr : List α) (c r : Nat) : (swapEntries arr c r).Perm arr := by
  by_cases hc : c < arr.length
  · by_cases hr : r < arr.length
    · have key : swapEntries arr c r =
          List.ofFn ((fun i : Fin arr.length => arr[(i : Nat)]) ∘ Equiv.swap ⟨c, hc⟩ ⟨r, hr⟩) := by
        apply List.ext_getElem?
        intro k
        rw [swapEntries_getElem? hc hr]
        rw [List.getElem?_ofFn, List.ofFnNthVal]
        by_cases hk : k < arr.length
        · rw [dif_pos hk]
          by_cases h1 : k = r
          · subst h1
            simp [List.getElem?_eq_getElem hc]
          · by_cases h2 : k = c
            · subst h2
              simp [h1, List.getElem?_eq_getElem hr]
            · have e : Equiv.swap (⟨c, hc⟩ : Fin arr.length) ⟨r, hr⟩ ⟨k, hk⟩ = ⟨k, hk⟩ :=
                Equiv.swap_apply_of_ne_of_ne (by simpa [Fin.ext_iff] using h2)
                  (by simpa [Fin.ext_iff] using h1)
              simp [h1, h2, e, List.getElem?_eq_getElem hk]
        · have hle : arr.length ≤ k := by omega
          have hr' : ¬ k = r := by omega
          have hc' : ¬ k = c := by omega
          rw [dif_neg hk]
          simp [hr', hc', List.getElem?_eq_none hle]
      rw [key]
      have := Equiv.Perm.ofFn_comp_perm (Equiv.swap (⟨c, hc⟩ : Fin arr.length) ⟨r, hr⟩)
        (fun i : Fin arr.length => arr[(i : Nat)])
      rwa [List.ofFn_getElem] at this
    · have : arr[r]? = none := List.getElem?_eq_none (by omega)
      simp [swapEntries, this]
  · have : arr[c]? = none := List.getElem?_eq_none (by omega)
    unfold swapEntries
    rw [this]
    split <;> simp_all

theorem shuffleLoop_length {α : Type} (draw : Nat → Nat) (ci : Nat) :
    ∀ arr : List α, (shuffleLoop draw ci arr).length = arr.length := by
  induction ci with
  | zero => intro arr; rfl
  | succ ci ih => intro arr; rw [shuffleLoop, ih, swapEntries_length]

theorem shuffleLoop_perm {α : Type} (draw : Nat → Nat) (ci : Nat) :
    ∀ arr : List α, (shuffleLoop draw ci arr).Perm arr := by
  induction ci with
  | zero => intro arr; exact List.Perm.refl _
  | succ ci ih => intro arr; rw [shuffleLoop]; exact (ih _).trans (swapEntries_perm _ _ _)

theorem shuffleLoop_map {α β : Type} (f : α → β) (draw : Nat → Nat) (ci : Nat) :
    ∀ arr : List α, shuffleLoop draw ci (arr.map f) = (shuffleLoop draw ci arr).map f := by
  induction ci with
  | zero => intro arr; rfl
  | succ ci ih => intro arr; rw [shuffleLoop, shuffleLoop, swapEntries_map, ih]

theorem shuffleLoop_congr {α : Type} {d1 d2 : Nat → Nat} (ci : Nat) :
    ∀ arr : List α, (∀ i, 0 < i → i ≤ ci → d1 i = d2 i) →
      shuffleLoop d1 ci arr = shuffleLoop d2 ci arr := by
  induction ci with
  | zero => intro arr _; rfl
  | succ ci ih =>
    intro arr h
    rw [shuffleLoop, shuffleLoop, h (ci + 1) (by omega) (by omega)]
    exact ih _ (fun i h1 h2 => h i h1 (by omega))

theorem shuffleWhile_eq {α : Type} (draw : Nat → Nat) (fuel : Nat) :
    ∀ (arr : List α) (ci : Nat), shuffleWhile draw fuel ⟨arr, ci⟩ =
      if ci ≤ fuel then some ⟨shuffleLoop draw ci arr, 0⟩ else none := by
  induction fuel with
  | zero =>
    intro arr ci
    cases ci with
    | zero => simp [shuffleWhile, shuffleLoop]
    | succ ci => simp [shuffleWhile]
  | succ fuel ih =>
    intro arr ci
    cases ci with
    | zero => simp [shuffleWhile, shuffleLoop]
    | succ ci => simp [shuffleWhile, shuffleBody, shuffleLoop, ih]

theorem ValidDraws.mono {draw : Nat → Nat} {m n : Nat} (h : ValidDraws draw n) (hmn : m ≤ n) :
    ValidDraws draw m :=
  fun i h1 h2 => h i h1 (by omega)

/-- The passes with `currentIndex` at most `ci` touch no position from `ci` on. -/
theorem shuffleLoop_getElem?_ge {α : Type} {draw : Nat → Nat} (ci : Nat) :
    ∀ arr : List α, ci ≤ arr.length → ValidDraws draw ci → ∀ k, ci ≤ k →
      (shuffleLoop draw ci arr)[k]? = arr[k]? := by
  induction ci with
  | zero => intro arr _ _ k _; rfl
  | succ ci ih =>
    intro arr hlen hv k hk
    have hd : draw (ci + 1) < ci + 1 := hv (ci + 1) (by omega) (by omega)
    rw [shuffleLoop, ih _ (by rw [swapEntries_length]; omega) (hv.mono (by omega)) k (by omega),
      swapEntries_getElem? (by omega) (by omega)]
    have h1 : ¬ k = draw (ci + 1) := by omega
    have h2 : ¬ k = ci := by omega
    simp [h1, h2]

/-- The pass taken at `currentIndex = ci + 1` settles position `ci`. -/
theorem shuffleLoop_getElem?_top {α : Type} {draw : Nat → Nat} (ci : Nat) (arr : List α)
    (hlen : ci + 1 ≤ arr.length) (hv : ValidDraws draw (ci + 1)) :
    (shuffleLoop draw (ci + 1) arr)[ci]? = arr[draw (ci + 1)]? := by
  have hd : draw (ci + 1) < ci + 1 := hv (ci + 1) (by omega) (by omega)
  rw [shuffleLoop, shuffleLoop_getElem?_ge ci _ (by rw [swapEntries_length]; omega)
    (hv.mono (by omega)) ci (le_refl _), swapEntries_getElem? (by omega) (by omega)]
  by_cases h : ci = draw (ci + 1)
  · rw [if_pos h, ← h]
  · rw [if_neg h, if_pos rfl]

/-- On an array without repeats the outcome determines the draws. -/
theorem shuffleLoop_inj {α : Type} {d1 d2 : Nat → Nat} (ci : Nat) :
    ∀ arr : List α, arr.Nodup → ci ≤ arr.length → ValidDraws d1 ci → ValidDraws d2 ci →
      shuffleLoop d1 ci arr = shuffleLoop d2 ci arr → ∀ i, 0 < i → i ≤ ci → d1 i = d2 i := by
  induction ci with
  | zero => intro arr _ _ _ _ _ i h1 h2; omega
  | succ ci ih =>
    intro arr hnd hlen hv1 hv2 heq i h1 h2
    have hd1 : d1 (ci + 1) < ci + 1 := hv1 (ci + 1) (by omega) (by omega)
    have hd2 : d2 (ci + 1) < ci + 1 := hv2 (ci + 1) (by omega) (by omega)
    have htop : arr[d1 (ci + 1)]? = arr[d2 (ci + 1)]? := by
      rw [← shuffleLoop_getElem?_top ci arr hlen hv1, ← shuffleLoop_getElem?_top ci arr hlen hv2,
        heq]
    have hl1 : d1 (ci + 1) < arr.length := by omega
    have hl2 : d2 (ci + 1) < arr.length := by omega
    rw [List.getElem?_eq_getElem hl1, List.getElem?_eq_getElem hl2, Option.some.injEq] at htop
    have hsame : d1 (ci + 1) = d2 (ci + 1) := (hnd.getElem_inj_iff).mp htop
    by_cases hi : i = ci + 1
    · rw [hi]; exact hsame
    · rw [shuffleLoop, shuffleLoop, hsame] at heq
      exact ih _ ((swapEntries_perm _ _ _).nodup_iff.mpr hnd)
        (by rw [swapEntries_length]; omega) (hv1.mono (by omega)) (hv2.mono (by omega))
        heq i h1 (by omega)

/-- Every arrangement that differs from the array only below `ci` is the
outcome of some draws. -/
theorem shuffleLoop_surj {α : Type} (ci : Nat) :
    ∀ arr l : List α, ci ≤ arr.length → l.Perm arr → (∀ k, ci ≤ k → l[k]? = arr[k]?) →
      ∃ draw, ValidDraws draw ci ∧ shuffleLoop draw ci arr = l := by
  induction ci with
  | zero =>
    intro arr l _ _ hk
    refine ⟨fun _ => 0, fun i h1 h2 => by omega, ?_⟩
    exact (List.ext_getElem? (fun k => hk k (Nat.zero_le _))).symm
  | succ ci ih =>
    intro arr l hlen hp hk
    have hll : l.length = arr.length := hp.length_eq
    have hdrop : l.drop (ci + 1) = arr.drop (ci + 1) := by
      apply List.ext_getElem?
      intro k
      rw [List.getElem?_drop, List.getElem?_drop]
      exact hk _ (by omega)
    have htake : (l.take (ci + 1)).Perm (arr.take (ci + 1)) := by
      have h := hp
      rw [← List.take_append_drop (ci + 1) l, ← List.take_append_drop (ci + 1) arr, hdrop] at h
      exact (List.perm_append_right_iff _).mp h
    have hcil : ci < l.length := by omega
    have hmem : l[ci] ∈ arr.take (ci + 1) := by
      apply htake.subset
      rw [List.mem_take_iff_getElem]
      exact ⟨ci, by rw [hll]; omega, rfl⟩
    obtain ⟨d, hd, hdl⟩ := List.mem_take_iff_getElem.mp hmem
    have hd' : d < ci + 1 := by omega
    have hdlen : d < arr.length := by omega
    obtain ⟨draw, hv, hdraw⟩ := ih (swapEntries arr ci d) l
      (by rw [swapEntries_length]; omega) (hp.trans (swapEntries_perm arr ci d).symm)
      (by
        intro k hck
        rw [swapEntries_getElem? (by omega) hdlen]
        by_cases h1 : k = d
        · rw [if_pos h1]
          have hkc : k = ci := by omega
          have hdc : d = ci := by omega
          subst hdc
          rw [hkc, List.getElem?_eq_getElem hdlen, hdl, List.getElem?_eq_getElem (by omega)]
        · rw [if_neg h1]
          by_cases h2 : k = ci
          · rw [if_pos h2, h2, List.getElem?_eq_getElem hdlen, hdl,
              List.getElem?_eq_getElem (by omega)]
          · rw [if_neg h2]
            exact hk k (by omega))
    refine ⟨fun i => if i = ci + 1 then d else draw i, ?_, ?_⟩
    · intro i h1 h2
      by_cases hi : i = ci + 1
      · simp only [hi, if_true]; omega
      · simp only [hi, if_false]
        exact hv i h1 (by omega)
    · rw [shuffleLoop]
      simp only [if_true]
      rw [← hdraw]
      apply shuffleLoop_congr
      intro i h1 h2
      have hi : ¬ i = ci + 1 := by omega
      simp [hi]

theorem validDraws_drawOf {n : Nat} (d : DrawSeq n) : ValidDraws (drawOf d) n := by
  intro i h1 h2
  have h : 0 < i ∧ i ≤ n := ⟨h1, h2⟩
  simp only [drawOf, dif_pos h]
  have := (d ⟨i - 1, by omega⟩).isLt
  simp only at this
  omega

theorem drawOf_succ {n : Nat} (d : DrawSeq n) (i : Fin n) : drawOf d (i.val + 1) = (d i).val := by
  have h : 0 < i.val + 1 ∧ i.val + 1 ≤ n := ⟨by omega, i.isLt⟩
  simp only [drawOf, dif_pos h]
  rfl

/-- Every admissible run of the random source is the run of a `DrawSeq`. -/
theorem exists_drawSeq {draw : Nat → Nat} {n : Nat} (hv : ValidDraws draw n) :
    ∃ d : DrawSeq n, ∀ i, 0 < i → i ≤ n → drawOf d i = draw i := by
  refine ⟨fun i => ⟨draw (i.val + 1), hv (i.val + 1) (by omega) i.isLt⟩, ?_⟩
  intro i h1 h2
  have h : 0 < i ∧ i ≤ n := ⟨h1, h2⟩
  simp only [drawOf, dif_pos h]
  congr 1
  omega

theorem card_drawSeq (n : Nat) : Fintype.card (DrawSeq n) = n.factorial := by
  rw [Fintype.card_pi]
  simp only [Fintype.card_fin]
  rw [Fin.prod_univ_eq_prod_range (fun i => i + 1) n]
  exact Finset.prod_range_add_one_eq_factorial n

theorem shuffleArray_range_injective (n : Nat) :
    Function.Injective (fun d : DrawSeq n => shuffleArray (drawOf d) (List.range n)) := by
  intro d1 d2 h
  simp only [shuffleArray, List.length_range] at h
  have key := shuffleLoop_inj n (List.range n) (List.nodup_range n) (by simp)
    (validDraws_drawOf d1) (validDraws_drawOf d2) h
  funext i
  apply Fin.ext
  rw [← drawOf_succ d1 i, ← drawOf_succ d2 i]
  exact key (i.val + 1) (by omega) i.isLt

theorem shuffleArray_surj {α : Type} (n : Nat) (arr l : List α) (hn : arr.length = n)
    (hp : l.Perm arr) : ∃ d : DrawSeq n, shuffleArray (drawOf d) arr = l := by
  subst hn
  obtain ⟨draw, hv, hdraw⟩ := shuffleLoop_surj arr.length arr l (le_refl _) hp
    (by
      intro k hk
      rw [List.getElem?_eq_none (by rw [hp.length_eq]; exact hk), List.getElem?_eq_none hk])
  obtain ⟨d, hd⟩ := exists_drawSeq hv
  exact ⟨d, by rw [shuffleArray, ← hdraw]; exact shuffleLoop_congr _ _ hd⟩


/-! ## Lemmas on the sampler -/

theorem pushIds_eq_ok (shuffledData : List PoolEntry) (remaining : Nat) :
    ∀ (i : Nat) (categoryIds : List Nat), i + remaining ≤ shuffledData.length →
      pushIds shuffledData remaining i categoryIds =
        .ok (categoryIds ++ ((shuffledData.drop i).take remaining).map (fun entry => entry.id)) := by
  induction remaining with
  | zero => intro i categoryIds _; simp [pushIds]
  | succ remaining ih =>
    intro i categoryIds h
    have hi : i < shuffledData.length := by omega
    rw [pushIds, List.getElem?_eq_getElem hi]
    simp only
    rw [ih (i + 1) _ (by omega)]
    conv_rhs => rw [List.drop_eq_getElem_cons hi]
    rw [List.take_succ_cons, List.map_cons, List.append_assoc]
    rfl

theorem pushIds_missing (shuffledData : List PoolEntry) (remaining : Nat) :
    ∀ (i : Nat) (categoryIds : List Nat), i ≤ shuffledData.length →
      shuffledData.length < i + remaining →
      pushIds shuffledData remaining i categoryIds = .error .typeError := by
  induction remaining with
  | zero => intro i categoryIds h1 h2; omega
  | succ remaining ih =>
    intro i categoryIds h1 h2
    rw [pushIds]
    by_cases hi : i < shuffledData.length
    · rw [List.getElem?_eq_getElem hi]
      exact ih (i + 1) _ (by omega) (by omega)
    · rw [List.getElem?_eq_none (by omega)]

theorem getCategoryIds_eq_take {draw : Nat → Nat} {data : List PoolEntry}
    (hlen : 6 ≤ data.length) :
    getCategoryIds draw (.ok data) =
      .ok (((shuffleArray draw data).take 6).map (fun entry => entry.id)) := by
  have h := pushIds_eq_ok (shuffleArray draw data) 6 0 []
    (by rw [shuffleArray, shuffleLoop_length]; omega)
  simpa [getCategoryIds] using h

/-! ## Verified claims -/

/-- C1: one call of `handleClick` on the cell of an existing clue turns
`showing = null` into `"question"`, `"question"` into `"answer"` and leaves
`"answer"` (and the whole page) as it is; so from a hidden clue the first
click shows the question, the second the answer and the third changes
nothing. -/
theorem handleClick_transitions (g : Game) (evt : ClickEvent) (clue : Clue)
    (h : clueAt g.categories evt.column evt.row = some clue) :
    (clue.showing = none → ∃ g', handleClick evt g = .ok g' ∧
      clueAt g'.categories evt.column evt.row = some { clue with showing := some "question" }) ∧
    (clue.showing = some "question" → ∃ g', handleClick evt g = .ok g' ∧
      clueAt g'.categories evt.column evt.row = some { clue with showing := some "answer" }) ∧
    (clue.showing = some "answer" → handleClick evt g = .ok g) ∧
    (clue.showing = none → ∃ g1 g2, handleClick evt g = .ok g1 ∧
      clueAt g1.categories evt.column evt.row = some { clue with showing := some "question" } ∧
      handleClick evt g1 = .ok g2 ∧
      clueAt g2.categories evt.column evt.row = some { clue with showing := some "answer" } ∧
      handleClick evt g2 = .ok g2) := by
  have first : clue.showing = none → ∃ g', handleClick evt g = .ok g' ∧
      clueAt g'.categories evt.column evt.row = some { clue with showing := some "question" } := by
    intro hs
    obtain ⟨g', hg', -, -, -, hat⟩ := handleClick_spec h
    refine ⟨g', hg', ?_⟩
    rw [hat]
    simp [hs, nextShowing]
  have second : ∀ (g : Game) (clue : Clue), clueAt g.categories evt.column evt.row = some clue →
      clue.showing = some "question" → ∃ g', handleClick evt g = .ok g' ∧
      clueAt g'.categories evt.column evt.row = some { clue with showing := some "answer" } := by
    intro g clue h hs
    obtain ⟨g', hg', -, -, -, hat⟩ := handleClick_spec h
    refine ⟨g', hg', ?_⟩
    rw [hat]
    simp [hs, nextShowing]
  refine ⟨first, second g clue h, handleClick_answer h, ?_⟩
  intro hs
  obtain ⟨g1, hg1, h1⟩ := first hs
  obtain ⟨g2, hg2, h2⟩ := second g1 _ h1 rfl
  exact ⟨g1, g2, hg1, h1, hg2, h2, handleClick_answer h2 rfl⟩

/-- Witness of C1: the clue "2+2" of the sample page, clicked three times. -/
theorem handleClick_transitions_witness :
    clueAt sampleGame.categories 0 0 = some sampleClue ∧
    ∃ g1 g2, handleClick ⟨0, 0⟩ sampleGame = .ok g1 ∧
      clueAt g1.categories 0 0 = some { sampleClue with showing := some "question" } ∧
      handleClick ⟨0, 0⟩ g1 = .ok g2 ∧
      clueAt g2.categories 0 0 = some { sampleClue with showing := some "answer" } ∧
      handleClick ⟨0, 0⟩ g2 = .ok g2 :=
  ⟨by decide, (handleClick_transitions sampleGame ⟨0, 0⟩ sampleClue (by decide)).2.2.2 (by decide)⟩

/-- C2: a call of `handleClick` on the cell of an existing clue keeps the
header, every category title and the number of clues of every category,
keeps every other clue exactly as it was, and keeps the question and the
answer of the clicked clue; only `showing` of that clue may differ. -/
theorem handleClick_frame (g : Game) (evt : ClickEvent) (clue : Clue)
    (h : clueAt g.categories evt.column evt.row = some clue) :
    ∃ g', handleClick evt g = .ok g' ∧ g'.header = g.header ∧
      g'.categories.map (fun category => category.title) =
        g.categories.map (fun category => category.title) ∧
      g'.categories.map (fun category => category.clues.length) =
        g.categories.map (fun category => category.clues.length) ∧
      (∀ c r, ¬ (c = evt.column ∧ r = evt.row) →
        clueAt g'.categories c r = clueAt g.categories c r) ∧
      ∃ showing, clueAt g'.categories evt.column evt.row =
        some { question := clue.question, answer := clue.answer, showing := showing } := by
  obtain ⟨g', hg', hh, ht, hl, hat⟩ := handleClick_spec h
  refine ⟨g', hg', hh, ht, hl, ?_, nextShowing clue.showing, ?_⟩
  · intro c r hcr
    rw [hat, if_neg hcr]
  · rw [hat]
    simp

/-- Witness of C2: a click on the clue "2+2" of the sample page. -/
theorem handleClick_frame_witness :
    clueAt sampleGame.categories 0 0 = some sampleClue ∧
    ∃ g', handleClick ⟨0, 0⟩ sampleGame = .ok g' ∧ g'.header = sampleGame.header ∧
      g'.categories.map (fun category => category.title) =
        sampleGame.categories.map (fun category => category.title) ∧
      g'.categories.map (fun category => category.clues.length) =
        sampleGame.categories.map (fun category => category.clues.length) ∧
      (∀ c r, ¬ (c = 0 ∧ r = 0) →
        clueAt g'.categories c r = clueAt sampleGame.categories c r) ∧
      ∃ showing, clueAt g'.categories 0 0 =
        some { question := "2+2", answer := "4", showing := showing } :=
  ⟨by decide, handleClick_frame sampleGame ⟨0, 0⟩ sampleClue (by decide)⟩

/-- C9: `"answer"` is final. A click on a cell whose clue shows its answer
returns without error and leaves the whole page, the cell text included, as
it was; through any sequence of clicks on any cells such a clue stays the
same clue; and a clue that started with `showing = null` and whose cell was
clicked at least twice within the sequence shows `"answer"`. -/
theorem answer_is_final :
    (∀ (g : Game) (evt : ClickEvent) (clue : Clue),
      clueAt g.categories evt.column evt.row = some clue → clue.showing = some "answer" →
      handleClick evt g = .ok g) ∧
    (∀ (g : Game) (evts : List ClickEvent) (c r : Nat) (clue : Clue),
      clueAt g.categories c r = some clue → clue.showing = some "answer" →
      clueAt (clicks evts g).categories c r = some clue) ∧
    (∀ (g : Game) (evts : List ClickEvent) (c r : Nat) (clue : Clue),
      clueAt g.categories c r = some clue → clue.showing = none →
      2 ≤ evts.count ⟨r, c⟩ →
      clueAt (clicks evts g).categories c r = some { clue with showing := some "answer" }) := by
  refine ⟨fun g evt clue h hs => handleClick_answer h hs, ?_, ?_⟩
  · intro g evts c r clue h hs
    rw [clicks_clueAt evts g c r clue h, hs, nextShowing_iterate_answer, ← hs]
  · intro g evts c r clue h hs hn
    rw [clicks_clueAt evts g c r clue h, hs, nextShowing_iterate_null _ hn]

/-- Witness of C9: on the sample page the clue "Plath" already shows its
answer, and the clue "2+2" is clicked three times among other clicks. -/
theorem answer_is_final_witness :
    handleClick ⟨1, 1⟩ sampleGame = .ok sampleGame ∧
    clueAt (clicks [⟨0, 0⟩, ⟨1, 1⟩, ⟨7, 7⟩, ⟨1, 0⟩] sampleGame).categories 1 1 =
      some { question := "Bell Jar Author", answer := "Plath", showing := some "answer" } ∧
    clueAt (clicks [⟨0, 0⟩, ⟨1, 1⟩, ⟨0, 0⟩, ⟨7, 7⟩, ⟨0, 0⟩] sampleGame).categories 0 0 =
      some { sampleClue with showing := some "answer" } :=
  ⟨answer_is_final.1 sampleGame ⟨1, 1⟩
      { question := "Bell Jar Author", answer := "Plath", showing := some "answer" }
      (by decide) (by decide),
   answer_is_final.2.1 sampleGame _ 1 1
      { question := "Bell Jar Author", answer := "Plath", showing := some "answer" }
      (by decide) (by decide),
   answer_is_final.2.2 sampleGame _ 0 0 sampleClue (by decide) (by decide) (by decide)⟩

/-- C4: when the request of every identifier succeeds, the loop of
`populateCategoriesArr`, started from an empty `categories`, ends without
error with as many categories as identifiers, the i-th being the one
`getCategory` returns for the i-th identifier; the same holds for
`populateCategoriesArr` and the identifiers `getCategoryIds` hands it. -/
theorem populate_preserves_order (fetch : Nat → Except Rejection RawCategory) :
    (∀ ids : List Nat, (∀ catId ∈ ids, ∃ data, fetch catId = .ok data) →
      ∃ categories, populateLoop fetch ids [] = (.ok (), categories) ∧
        categories.length = ids.length ∧
        List.Forall₂ (fun catId category => getCategory fetch catId = .ok category)
          ids categories ∧
        ∀ (i catId : Nat), ids[i]? = some catId → ∃ (data : RawCategory) (category : Category), fetch catId = .ok data ∧
          categories[i]? = some category ∧ category.title = data.title) ∧
    (∀ (draw : Nat → Nat) (res : Except Rejection (List PoolEntry)) (ids : List Nat),
      getCategoryIds draw res = .ok ids → (∀ catId ∈ ids, ∃ data, fetch catId = .ok data) →
      ∃ categories, populateCategoriesArr draw res fetch [] = (.ok (), categories) ∧
        List.Forall₂ (fun catId category => getCategory fetch catId = .ok category)
          ids categories) := by
  have key : ∀ ids : List Nat, (∀ catId ∈ ids, ∃ data, fetch catId = .ok data) →
      ∃ categories, populateLoop fetch ids [] = (.ok (), categories) ∧
        List.Forall₂ (fun catId category => getCategory fetch catId = .ok category)
          ids categories := by
    intro ids hall
    obtain ⟨fetched, hf, h2⟩ := populateLoop_all_ok fetch ids [] hall
    exact ⟨fetched, by simpa using hf, h2⟩
  constructor
  · intro ids hall
    obtain ⟨categories, hf, h2⟩ := key ids hall
    refine ⟨categories, hf, h2.length_eq.symm, h2, ?_⟩
    intro i catId hi
    obtain ⟨hlt, hget⟩ := List.getElem?_eq_some.mp hi
    have hlt' : i < categories.length := by rw [← h2.length_eq]; exact hlt
    have hR := (List.forall₂_iff_get.mp h2).2 i hlt hlt'
    simp only [List.get_eq_getElem] at hR
    rw [hget] at hR
    obtain ⟨data, hd, ht, -⟩ := getCategory_eq_ok hR
    exact ⟨data, categories[i], hd, List.getElem?_eq_getElem hlt', ht⟩
  · intro draw res ids hids hall
    obtain ⟨categories, hf, h2⟩ := key ids hall
    exact ⟨categories, by simp only [populateCategoriesArr, hids, hf], h2⟩

/-- Witness of C4: three identifiers, every request succeeding. -/
theorem populate_preserves_order_witness :
    ∃ categories, populateLoop sampleFetch [11, 12, 13] [] = (.ok (), categories) ∧
      categories.length = [11, 12, 13].length ∧
      List.Forall₂ (fun catId category => getCategory sampleFetch catId = .ok category)
        [11, 12, 13] categories ∧
      ∀ (i catId : Nat), [11, 12, 13][i]? = some catId → ∃ (data : RawCategory) (category : Category), sampleFetch catId = .ok data ∧
        categories[i]? = some category ∧ category.title = data.title :=
  (populate_preserves_order sampleFetch).1 [11, 12, 13] (fun _ _ => ⟨_, rfl⟩)

/-- C5: for a request that succeeds, `getCategory` returns the raw title
and, clue by clue and in the same order, the raw question and answer with
`showing = null`; so six identifiers whose requests each return five clues
give six categories of five clues, all with `showing = null`. -/
theorem getCategory_normalises (fetch : Nat → Except Rejection RawCategory) :
    (∀ (catId : Nat) (data : RawCategory), fetch catId = .ok data →
      getCategory fetch catId = .ok
        { title := data.title
          clues := data.clues.map
            (fun clue => { question := clue.question, answer := clue.answer, showing := none }) }) ∧
    (∀ ids : List Nat, ids.length = 6 →
      (∀ catId ∈ ids, ∃ data, fetch catId = .ok data ∧ data.clues.length = 5) →
      ∃ categories, populateLoop fetch ids [] = (.ok (), categories) ∧
        categories.length = 6 ∧
        ∀ category ∈ categories, category.clues.length = 5 ∧
          ∀ clue ∈ category.clues, clue.showing = none) := by
  refine ⟨fun catId data h => getCategory_ok h, ?_⟩
  intro ids hlen hall
  obtain ⟨fetched, hf, h2⟩ := populateLoop_all_ok fetch ids []
    (fun catId hc => (hall catId hc).imp fun _ h => h.1)
  refine ⟨fetched, by simpa using hf, by rw [← h2.length_eq, hlen], ?_⟩
  intro category hmem
  obtain ⟨i, hi, rfl⟩ := List.getElem_of_mem hmem
  have hlt : i < ids.length := by rw [h2.length_eq]; exact hi
  have hR := (List.forall₂_iff_get.mp h2).2 i hlt hi
  simp only [List.get_eq_getElem] at hR
  obtain ⟨data, hd, -, hcl⟩ := getCategory_eq_ok hR
  obtain ⟨data', hd', h5⟩ := hall ids[i] (List.getElem_mem hlt)
  rw [hd] at hd'
  cases hd'
  rw [hcl]
  refine ⟨by simpa using h5, ?_⟩
  intro clue hclue
  obtain ⟨raw, -, rfl⟩ := List.mem_map.mp hclue
  rfl

/-- Witness of C5: six identifiers with five clues each. -/
theorem getCategory_normalises_witness :
    getCategory sampleFetch 12 = .ok
      { title := "Even"
        clues := fiveClues.map
          (fun clue => { question := clue.question, answer := clue.answer, showing := none }) } ∧
    ∃ categories, populateLoop sampleFetch [11, 12, 13, 14, 15, 16] [] = (.ok (), categories) ∧
      categories.length = 6 ∧
      ∀ category ∈ categories, category.clues.length = 5 ∧
        ∀ clue ∈ category.clues, clue.showing = none :=
  ⟨(getCategory_normalises sampleFetch).1 12 _ rfl,
   (getCategory_normalises sampleFetch).2 [11, 12, 13, 14, 15, 16] rfl
     (fun _ _ => ⟨_, rfl, rfl⟩)⟩

/-- C6, as the code behaves: when the request of some identifier is
rejected and those before it succeed, the loop of `populateCategoriesArr`
fails with that rejection, and `categories` then holds, behind what it held
before, exactly the categories fetched before the failure, in order;
`fillTable` passes the failure on and draws nothing. -/
theorem populate_failure_keeps_fetched (fetch : Nat → Except Rejection RawCategory) :
    (∀ (before : List Nat) (catId : Nat) (after : List Nat) (reason : Rejection)
        (categories : List Category),
      (∀ id ∈ before, ∃ data, fetch id = .ok data) → fetch catId = .error reason →
      ∃ fetched, populateLoop fetch (before ++ catId :: after) categories =
          (.error (.rejected reason), categories ++ fetched) ∧
        fetched.length = before.length ∧
        List.Forall₂ (fun id category => getCategory fetch id = .ok category) before fetched) ∧
    (∀ (draw : Nat → Nat) (res : Except Rejection (List PoolEntry)) (g : Game) (e : JsError)
        (categories : List Category),
      populateCategoriesArr draw res fetch g.categories = (.error e, categories) →
      fillTable draw res fetch g =
        (.error e, { categories := categories, header := g.header, questions := g.questions })) := by
  constructor
  · intro before catId after reason categories hall hfail
    obtain ⟨fetched, hf, h2⟩ :=
      populateLoop_rejected fetch before categories catId after reason hall hfail
    exact ⟨fetched, hf, h2.length_eq.symm, h2⟩
  · intro draw res g e categories h
    exact fillTable_error h

/-- Witness of C6 as amended: six identifiers, the fourth request rejected. -/
theorem populate_failure_keeps_fetched_witness :
    ∃ fetched, populateLoop failingFetch ([11, 12, 13] ++ 14 :: [15, 16]) [] =
        (.error (.rejected ⟨"Error", "Network Error"⟩), [] ++ fetched) ∧
      fetched.length = [11, 12, 13].length ∧
      List.Forall₂ (fun id category => getCategory failingFetch id = .ok category)
        [11, 12, 13] fetched :=
  (populate_failure_keeps_fetched failingFetch).1 [11, 12, 13] 14 [15, 16] ⟨"Error", "Network Error"⟩ []
    (by
      intro id hid
      simp only [List.mem_cons, List.mem_singleton, List.not_mem_nil, or_false] at hid
      rcases hid with rfl | rfl | rfl <;> exact ⟨_, rfl⟩)
    rfl

/-- Counterexample to C6 as stated: with six identifiers and the fourth
request rejected, `categories` holds the three categories fetched before
the failure. -/
theorem populate_failure_leaves_fetched :
    populateLoop failingFetch [11, 12, 13, 14, 15, 16] [] =
      (.error (.rejected ⟨"Error", "Network Error"⟩),
        List.replicate 3 { title := "Math", clues := [⟨"2+2", "4", none⟩] }) ∧
    getCategory failingFetch 11 = .ok { title := "Math", clues := [⟨"2+2", "4", none⟩] } ∧
    ({ title := "Math", clues := [⟨"2+2", "4", none⟩] } : Category) ∈
      (populateLoop failingFetch [11, 12, 13, 14, 15, 16] []).2 :=
  ⟨rfl, rfl, by decide⟩

/-- C7, as the code behaves: a round that starts successfully has six
categories, each with exactly as many clues as its request returned (the
number is never compared with five), and a grid of five rows of six cells;
the cell in row r and column c addresses an existing clue exactly when r is
below the number of clues of category c, so every cell does when every
category has at least five clues. -/
theorem round_clue_counts (draw : Nat → Nat) (res : Except Rejection (List PoolEntry))
    (fetch : Nat → Except Rejection RawCategory) (g0 g : Game)
    (h : startGameClick draw res fetch g0 = (.ok (), g)) :
    ∃ ids, getCategoryIds draw res = .ok ids ∧ g.categories.length = 6 ∧
      List.Forall₂ (fun catId category => ∃ data, fetch catId = .ok data ∧
        category.clues.length = data.clues.length) ids g.categories ∧
      g.questions = List.replicate 5 (List.replicate 6 "?") ∧
      (∀ r c, r < 5 → c < 6 → ∃ category, g.categories[c]? = some category ∧
        (clueAt g.categories c r = none ↔ category.clues.length ≤ r)) ∧
      ((∀ category ∈ g.categories, 5 ≤ category.clues.length) →
        ∀ r c, r < 5 → c < 6 → ∃ clue, clueAt g.categories c r = some clue) := by
  obtain ⟨ids, hids, h2, -, hq⟩ := startGameClick_eq_ok h
  have hlen : g.categories.length = 6 := by
    rw [← h2.length_eq]
    exact getCategoryIds_length hids
  have hcell : ∀ r c, r < 5 → c < 6 → ∃ category, g.categories[c]? = some category ∧
      (clueAt g.categories c r = none ↔ category.clues.length ≤ r) := by
    intro r c _ hc
    have hlt : c < g.categories.length := by omega
    exact ⟨g.categories[c], List.getElem?_eq_getElem hlt,
      clueAt_eq_none_iff (List.getElem?_eq_getElem hlt)⟩
  refine ⟨ids, hids, hlen, ?_, hq, hcell, ?_⟩
  · refine h2.imp ?_
    intro catId category hg
    obtain ⟨data, hd, -, hcl⟩ := getCategory_eq_ok hg
    exact ⟨data, hd, by simp [hcl]⟩
  · intro hall r c hr hc
    obtain ⟨category, hcat, hiff⟩ := hcell r c hr hc
    have hmem : category ∈ g.categories := List.getElem?_mem hcat
    have h5 := hall category hmem
    cases hcl : clueAt g.categories c r with
    | none =>
      have := hiff.mp hcl
      omega
    | some clue => exact ⟨clue, rfl⟩

/-- Witness of C7 as amended: a round over the sample pool. -/
theorem round_clue_counts_witness :
    ∃ ids, getCategoryIds sampleDraw (.ok samplePool) = .ok ids ∧
      (startGameClick sampleDraw (.ok samplePool) sampleFetch sampleGame).2.categories.length = 6 :=
  (round_clue_counts sampleDraw (.ok samplePool) sampleFetch sampleGame
    (startGameClick sampleDraw (.ok samplePool) sampleFetch sampleGame).2 rfl).imp
    fun _ h => ⟨h.1, h.2.1⟩

/-- Counterexample to C7 as stated: every request returns a single clue, the
round starts all the same, its categories have one clue each, and a click on
the cell in row 4 of column 0 finds no clue and throws. -/
theorem short_category_round_succeeds :
    (startGameClick sampleDraw (.ok samplePool) shortFetch sampleGame).1 = .ok () ∧
    (startGameClick sampleDraw (.ok samplePool) shortFetch sampleGame).2.categories.map
      (fun category => category.clues.length) = [1, 1, 1, 1, 1, 1] ∧
    (startGameClick sampleDraw (.ok samplePool) shortFetch sampleGame).2.questions =
      List.replicate 5 (List.replicate 6 "?") ∧
    clueAt (startGameClick sampleDraw (.ok samplePool) shortFetch sampleGame).2.categories 0 4 =
      none ∧
    handleClick ⟨4, 0⟩ (startGameClick sampleDraw (.ok samplePool) shortFetch sampleGame).2 =
      .error .typeError :=
  ⟨rfl, rfl, rfl, rfl, rfl⟩

/-- C3, as the code behaves: for a pool of at least six entries and draws
below `currentIndex`, `getCategoryIds` returns exactly six identifiers, the
identifiers of the first six entries of a rearrangement of the pool, hence
of six different entries of the pool; they are pairwise distinct whenever
the identifiers of the pool are. -/
theorem getCategoryIds_samples_six (draw : Nat → Nat) (data : List PoolEntry)
    (hlen : 6 ≤ data.length) (_hv : ValidDraws draw data.length) :
    ∃ ids, getCategoryIds draw (.ok data) = .ok ids ∧ ids.length = 6 ∧
      (∀ id ∈ ids, ∃ entry ∈ data, entry.id = id) ∧
      (∃ shuffled : List PoolEntry, shuffled.Perm data ∧
        ids = (shuffled.take 6).map (fun entry => entry.id)) ∧
      ((data.map (fun entry => entry.id)).Nodup → ids.Nodup) := by
  have hperm : (shuffleArray draw data).Perm data := shuffleLoop_perm draw _ data
  refine ⟨_, getCategoryIds_eq_take hlen, ?_, ?_, ⟨_, hperm, rfl⟩, ?_⟩
  · rw [List.length_map, List.length_take, hperm.length_eq]
    omega
  · intro id hid
    obtain ⟨entry, hentry, rfl⟩ := List.mem_map.mp hid
    exact ⟨entry, hperm.subset (List.mem_of_mem_take hentry), rfl⟩
  · intro hnd
    have h1 : ((shuffleArray draw data).map (fun entry => entry.id)).Nodup :=
      (hperm.map _).nodup_iff.mpr hnd
    rw [List.map_take]
    exact h1.sublist (List.take_sublist _ _)

/-- Witness of C3 as amended: the sample pool of seven entries. -/
theorem getCategoryIds_samples_six_witness :
    6 ≤ samplePool.length ∧ ValidDraws sampleDraw samplePool.length ∧
    ∃ ids, getCategoryIds sampleDraw (.ok samplePool) = .ok ids ∧ ids.length = 6 ∧
      (∀ id ∈ ids, ∃ entry ∈ samplePool, entry.id = id) ∧
      (∃ shuffled : List PoolEntry, shuffled.Perm samplePool ∧
        ids = (shuffled.take 6).map (fun entry => entry.id)) ∧
      ((samplePool.map (fun entry => entry.id)).Nodup → ids.Nodup) :=
  have hv : ValidDraws sampleDraw samplePool.length := by
    intro i h1 _
    simp only [sampleDraw]
    omega
  ⟨by decide, hv, getCategoryIds_samples_six sampleDraw samplePool (by decide) hv⟩

/-- Counterexample to C3 as stated: a pool of six entries of which two carry
the identifier 7; the six identifiers returned hold 7 twice. -/
theorem getCategoryIds_repeats_identifier :
    6 ≤ repeatedIdPool.length ∧ ValidDraws sampleDraw repeatedIdPool.length ∧
    getCategoryIds sampleDraw (.ok repeatedIdPool) = .ok [7, 11, 7, 10, 8, 9] ∧
    ¬ ([7, 11, 7, 10, 8, 9] : List Nat).Nodup := by
  refine ⟨by decide, ?_, rfl, by decide⟩
  intro i h1 _
  simp only [sampleDraw]
  omega

/-- C8, as the code behaves: for a pool of fewer than six entries
`getCategoryIds` returns no list; it fails with the `TypeError` raised when
`.id` is read from the missing entry. -/
theorem getCategoryIds_small_pool (draw : Nat → Nat) (data : List PoolEntry)
    (hlen : data.length < 6) (_hv : ValidDraws draw data.length) :
    getCategoryIds draw (.ok data) = .error .typeError ∧
    JsError.typeError.name = "TypeError" := by
  refine ⟨?_, rfl⟩
  have h := pushIds_missing (shuffleArray draw data) 6 0 [] (Nat.zero_le _)
    (by rw [shuffleArray, shuffleLoop_length]; omega)
  simpa [getCategoryIds] using h

/-- Witness of C8 as amended: the first five entries of the sample pool. -/
theorem getCategoryIds_small_pool_witness :
    (samplePool.take 5).length < 6 ∧ ValidDraws sampleDraw (samplePool.take 5).length ∧
    getCategoryIds sampleDraw (.ok (samplePool.take 5)) = .error .typeError :=
  have hv : ValidDraws sampleDraw (samplePool.take 5).length := by
    intro i h1 _
    simp only [sampleDraw]
    omega
  ⟨by decide, hv, (getCategoryIds_small_pool sampleDraw (samplePool.take 5) (by decide) hv).1⟩

/-- Counterexample to C8 as stated: on the empty pool the failure is a
`TypeError`, no error named `InsufficientPoolError`. -/
theorem getCategoryIds_empty_pool_typeError :
    getCategoryIds sampleDraw (.ok []) = .error .typeError ∧
    ¬ ∃ e, getCategoryIds sampleDraw (.ok []) = .error e ∧ e.name = "InsufficientPoolError" := by
  refine ⟨rfl, ?_⟩
  rintro ⟨e, he, hname⟩
  have h : getCategoryIds sampleDraw (.ok []) = .error .typeError := rfl
  rw [h] at he
  cases he
  revert hname
  decide

/-- C10: `shuffleArray` is the Fisher-Yates shuffle. With every draw below
`currentIndex`, the loop stops after exactly `arr.length` passes and returns
a rearrangement of the input: the same length, the same elements with the
same multiplicities, namely the input read through the arrangement the same
draws give to the positions `0 .. n-1`. Sending a sequence of draws to the
arrangement of the positions is one-to-one and reaches every permutation of
them, and there are `n!` sequences of draws, so that draws which are uniform
give each permutation the same probability. -/
theorem shuffleArray_fisher_yates :
    (∀ (α : Type) (draw : Nat → Nat) (arr : List α), ValidDraws draw arr.length →
      (∀ fuel, shuffleWhile draw fuel ⟨arr, arr.length⟩ =
        if arr.length ≤ fuel then some ⟨shuffleArray draw arr, 0⟩ else none) ∧
      (shuffleArray draw arr).length = arr.length ∧
      (shuffleArray draw arr).Perm arr ∧
      (shuffleArray draw arr).map some =
        (shuffleArray draw (List.range arr.length)).map (fun i => arr[i]?)) ∧
    (∀ n : Nat,
      Function.Injective (fun d : DrawSeq n => shuffleArray (drawOf d) (List.range n)) ∧
      (∀ l : List Nat, l.Perm (List.range n) ↔
        ∃ d : DrawSeq n, shuffleArray (drawOf d) (List.range n) = l) ∧
      (∀ l : List Nat, l.Perm (List.range n) →
        ∃! d : DrawSeq n, shuffleArray (drawOf d) (List.range n) = l) ∧
      Fintype.card (DrawSeq n) = n.factorial ∧
      (List.range n).permutations.length = n.factorial ∧
      (List.range n).permutations.Nodup ∧
      (∀ l : List Nat, l ∈ (List.range n).permutations ↔ l.Perm (List.range n)) ∧
      (∀ d : DrawSeq n, ValidDraws (drawOf d) n) ∧
      (∀ draw : Nat → Nat, ValidDraws draw n →
        ∃ d : DrawSeq n, ∀ i, 0 < i → i ≤ n → drawOf d i = draw i)) := by
  constructor
  · intro α draw arr _
    refine ⟨fun fuel => shuffleWhile_eq draw fuel arr arr.length,
      shuffleLoop_length draw _ arr, shuffleLoop_perm draw _ arr, ?_⟩
    have hpos : arr.map some = (List.range arr.length).map (fun i => arr[i]?) := by
      apply List.ext_getElem?
      intro k
      simp only [List.getElem?_map]
      by_cases hk : k < arr.length
      · simp [List.getElem?_range hk, List.getElem?_eq_getElem hk]
      · have hle : arr.length ≤ k := by omega
        simp [List.getElem?_eq_none, hle]
    simp only [shuffleArray, List.length_range]
    rw [← shuffleLoop_map, ← shuffleLoop_map, hpos]
  · intro n
    refine ⟨shuffleArray_range_injective n, ?_, ?_, card_drawSeq n, ?_,
      List.nodup_permutations _ (List.nodup_range n), fun l => List.mem_permutations, validDraws_drawOf, fun draw hv => exists_drawSeq hv⟩
    · intro l
      constructor
      · intro hp
        exact shuffleArray_surj n (List.range n) l (List.length_range n) hp
      · rintro ⟨d, rfl⟩
        exact shuffleLoop_perm _ _ _
    · intro l hp
      obtain ⟨d, hd⟩ := shuffleArray_surj n (List.range n) l (List.length_range n) hp
      exact ⟨d, hd, fun d' hd' => shuffleArray_range_injective n (hd'.trans hd.symm)⟩
    · rw [List.length_permutations, List.length_range]

/-- Witness of C10: the sample pool under the sample draws. -/
theorem shuffleArray_fisher_yates_witness :
    ValidDraws sampleDraw samplePool.length ∧
    shuffleWhile sampleDraw 7 ⟨samplePool, samplePool.length⟩ =
      some ⟨shuffleArray sampleDraw samplePool, 0⟩ ∧
    (shuffleArray sampleDraw samplePool).Perm samplePool ∧
    (shuffleArray sampleDraw samplePool).map (fun entry => entry.id) =
      [11, 16, 12, 15, 13, 17, 14] :=
  have hv : ValidDraws sampleDraw samplePool.length := by
    intro i h1 _
    simp only [sampleDraw]
    omega
  ⟨hv, (shuffleArray_fisher_yates.1 PoolEntry sampleDraw samplePool hv).1 7,
    (shuffleArray_fisher_yates.1 PoolEntry sampleDraw samplePool hv).2.2.1, by decide⟩

end Jeopardy
